import Mathlib

/-
Verification of the Forge blueprint normalizer (src/lib/normalizeBlueprint.ts,
src/registry/index.ts, src/types/blueprint.ts).

The JavaScript value universe is embedded as the mutual inductive family
`JValue` / `JList` / `JFields` (arrays and objects carry their own spine so
that every function below is structurally recursive and kernel-reducible).
JavaScript numbers are modelled as integers: no claim under verification
depends on fractional or IEEE-754 behaviour, and `parseFloat` is embedded as
an integer-prefix parse (the fractional digits are consumed and truncated).
JavaScript exceptions are modelled explicitly: the per-component normalizers
return their (partially updated) props together with an optional thrown-error
text, mirroring in-place mutation up to the throw point, and the top-level
entry point returns `Except String` so that a `TypeError` escaping it is
visible.  `exotic` stands for values whose `typeof` is neither a primitive
nor "object" (functions, symbols), carrying their `String()` rendering.
-/

namespace Forge

mutual

inductive JValue where
  | null
  | undefined
  | str (s : String)
  | num (n : Int)
  | bool (b : Bool)
  | arr (xs : JList)
  | obj (fs : JFields)
  | exotic (s : String)
  deriving DecidableEq

inductive JList where
  | nil
  | cons (v : JValue) (tl : JList)
  deriving DecidableEq

inductive JFields where
  | nil
  | cons (k : String) (v : JValue) (tl : JFields)
  deriving DecidableEq

end

def JList.ofL : List JValue → JList
  | [] => .nil
  | x :: tl => .cons x (JList.ofL tl)

def JList.toL : JList → List JValue
  | .nil => []
  | .cons x tl => x :: JList.toL tl

/-- Association-list view of a JS object: iteration order of its entries. -/
abbrev Props := List (String × JValue)

def JFields.ofL : Props → JFields
  | [] => .nil
  | (k, v) :: tl => .cons k v (JFields.ofL tl)

def JFields.toL : JFields → Props
  | .nil => []
  | .cons k v tl => (k, v) :: JFields.toL tl

/-- Build a JS array from a Lean list. -/
def jarr (xs : List JValue) : JValue := .arr (JList.ofL xs)

/-- Build a JS object from an entry list. -/
def jobj (fs : Props) : JValue := .obj (JFields.ofL fs)

theorem jlist_toL_ofL (xs : List JValue) : (JList.ofL xs).toL = xs := by
  induction xs with
  | nil => rfl
  | cons x tl ih => simp [JList.ofL, JList.toL, ih]

theorem jfields_toL_ofL (fs : Props) : (JFields.ofL fs).toL = fs := by
  induction fs with
  | nil => rfl
  | cons f tl ih => obtain ⟨k, v⟩ := f; simp [JFields.ofL, JFields.toL, ih]

/-- `val === null || val === undefined` (the `??` guard). -/
def JValue.isNullish : JValue → Bool
  | .null => true
  | .undefined => true
  | _ => false

/-- The `??` (nullish-coalescing) operator. -/
def nc (a b : JValue) : JValue := if a.isNullish then b else a

/-- JavaScript truthiness. -/
def jTruthy : JValue → Bool
  | .null => false
  | .undefined => false
  | .str s => s ≠ ""
  | .num n => n ≠ 0
  | .bool b => b
  | .arr _ => true
  | .obj _ => true
  | .exotic _ => true

/-- `typeof v === "object"` (true for plain objects, arrays and `null`). -/
def typeofObject : JValue → Bool
  | .obj _ => true
  | .arr _ => true
  | .null => true
  | _ => false

def JValue.isStr : JValue → Bool
  | .str _ => true
  | _ => false

def JValue.isNum : JValue → Bool
  | .num _ => true
  | _ => false

def JValue.isBool : JValue → Bool
  | .bool _ => true
  | _ => false

def JValue.isArr : JValue → Bool
  | .arr _ => true
  | _ => false

/-- First-occurrence lookup in an object entry list; a missing key reads as
`undefined`, as in JavaScript. -/
def pget (p : Props) (k : String) : JValue :=
  match p with
  | [] => .undefined
  | (k', v) :: tl => if k' = k then v else pget tl k

/-- Property assignment `p[k] = v`: overwrite in place, else append. -/
def pset (p : Props) (k : String) (v : JValue) : Props :=
  match p with
  | [] => [(k, v)]
  | (k', v') :: tl => if k' = k then (k', v) :: tl else (k', v') :: pset tl k v

/-- `delete p[k]`. -/
def pdel (p : Props) (k : String) : Props := p.filter (fun e => e.1 ≠ k)

/-- Property read `v.k` on an arbitrary value.  String-named reads on arrays,
primitives and exotic values yield `undefined`; reading a property of `null`
or `undefined` is the one JavaScript operation that throws, which callers
model separately. -/
def jsGetField (v : JValue) (k : String) : JValue :=
  match v with
  | .obj fs => pget fs.toL k
  | _ => .undefined

/-- `Object.entries` (arrays expose their elements under index keys). -/
def jsEntries (v : JValue) : Props :=
  match v with
  | .obj fs => fs.toL
  | .arr xs => (xs.toL.enum.map fun (i, x) => (toString i, x))
  | _ => []

/-- The text of the `TypeError` raised by reading property `k` of a nullish
value, as interpolated by a template literal. -/
def jsTypeError (v : JValue) (k : String) : String :=
  "TypeError: Cannot read properties of "
    ++ (match v with | .undefined => "undefined" | _ => "null")
    ++ " (reading \x27" ++ k ++ "\x27)"

mutual

/-- `String(v)`. -/
def jsToString : JValue → String
  | .null => "null"
  | .undefined => "undefined"
  | .str s => s
  | .num n => toString n
  | .bool b => if b then "true" else "false"
  | .arr xs => jsArrayJoin xs
  | .obj _ => "[object Object]"
  | .exotic s => s

/-- `Array.prototype.toString` = `join(",")`, rendering nullish elements as
the empty string. -/
def jsArrayJoin : JList → String
  | .nil => ""
  | .cons v tl =>
    (match v with
     | .null => ""
     | .undefined => ""
     | v' => jsToString v')
    ++ (match tl with
        | .nil => ""
        | tl' => "," ++ jsArrayJoin tl')

end

def jsonEscape (s : String) : String :=
  s.foldl
    (fun acc c =>
      acc ++ (if c = '"' then "\\\"" else if c = '\\' then "\\\\" else String.singleton c))
    ""

mutual

/-- `JSON.stringify` restricted to the acyclic values of the model (the
`catch` branch of `toSafeString` is unreachable here: an inductive value has
no reference cycle). -/
def jsonStringify : JValue → String
  | .null => "null"
  | .undefined => "undefined"
  | .str s => "\"" ++ jsonEscape s ++ "\""
  | .num n => toString n
  | .bool b => if b then "true" else "false"
  | .arr xs => "[" ++ String.intercalate "," (jsonElems xs) ++ "]"
  | .obj fs => "\x7b" ++ String.intercalate "," (jsonMembers fs) ++ "\x7d"
  | .exotic _ => "undefined"

/-- Array elements: unserializable entries render as `null`. -/
def jsonElems : JList → List String
  | .nil => []
  | .cons v tl =>
    (match v with
     | .undefined => "null"
     | .exotic _ => "null"
     | v' => jsonStringify v')
    :: jsonElems tl

/-- Object members: entries with unserializable values are skipped. -/
def jsonMembers : JFields → List String
  | .nil => []
  | .cons k v tl =>
    match v with
    | .undefined => jsonMembers tl
    | .exotic _ => jsonMembers tl
    | v' => ("\"" ++ jsonEscape k ++ "\":" ++ jsonStringify v') :: jsonMembers tl

end

/-- The value of key `k` when it holds a string (`"k" in obj && typeof obj.k
=== "string"`). -/
def strKey (p : Props) (k : String) : Option String :=
  match pget p k with
  | .str s => some s
  | _ => none

/-- Display-key extraction chain of `toSafeString` (lines 41–44). -/
def displayString (p : Props) : Option String :=
  (strKey p "label").orElse fun _ =>
    (strKey p "title").orElse fun _ =>
      (strKey p "name").orElse fun _ => strKey p "text"

/-- `toSafeString` (normalizeBlueprint.ts lines 34–48). -/
def toSafeString : JValue → String
  | .null => ""
  | .undefined => ""
  | .str s => s
  | .num n => toString n
  | .bool b => if b then "true" else "false"
  | .arr xs => jsonStringify (.arr xs)
  | .obj fs =>
    match displayString fs.toL with
    | some s => s
    | none => jsonStringify (.obj fs)
  | .exotic s => s

/-- `toStringArray` (lines 51–54). -/
def toStringArray : JValue → List String
  | .arr xs => xs.toL.map toSafeString
  | _ => []

/-- `ensureArray` (lines 57–61). -/
def ensureArray : JValue → List JValue
  | .arr xs => xs.toL
  | .null => []
  | .undefined => []
  | v => [v]

mutual

/-- `sanitizeValue` (lines 64–76). -/
def sanitizeValue : JValue → JValue
  | .null => .null
  | .undefined => .undefined
  | .str s => .str s
  | .num n => .num n
  | .bool b => .bool b
  | .arr xs => .arr (sanitizeJList xs)
  | .obj fs => .obj (sanitizeJFields fs)
  | .exotic s => .str s

def sanitizeJList : JList → JList
  | .nil => .nil
  | .cons v tl => .cons (sanitizeValue v) (sanitizeJList tl)

def sanitizeJFields : JFields → JFields
  | .nil => .nil
  | .cons k v tl => .cons k (sanitizeValue v) (sanitizeJFields tl)

end

/-- `parseInt(s, 10)`. -/
def jsParseInt (s : String) : Option Int :=
  let cs0 := s.toList.dropWhile (·.isWhitespace)
  let sign : Int := match cs0 with | '-' :: _ => -1 | _ => 1
  let cs := match cs0 with | '-' :: tl => tl | '+' :: tl => tl | _ => cs0
  let ds := cs.takeWhile (·.isDigit)
  if ds.isEmpty then none
  else some (sign * (ds.foldl (fun a c => a * 10 + (c.toNat - 48)) 0 : Nat))

/-- `parseFloat(s)`, truncated to the integer model of JS numbers: the
fractional digits are parsed and discarded (no verified claim depends on
them). -/
def jsParseFloat (s : String) : Option Int :=
  let cs0 := s.toList.dropWhile (·.isWhitespace)
  let sign : Int := match cs0 with | '-' :: _ => -1 | _ => 1
  let cs := match cs0 with | '-' :: tl => tl | '+' :: tl => tl | _ => cs0
  let ds := cs.takeWhile (·.isDigit)
  let rest := cs.drop ds.length
  let frac : List Char :=
    match rest with
    | '.' :: tl => tl.takeWhile (·.isDigit)
    | _ => []
  if ds.isEmpty && frac.isEmpty then none
  else some (sign * (ds.foldl (fun a c => a * 10 + (c.toNat - 48)) 0 : Nat))

/-- String `x || d` fallback (`toSafeString(v) || "App"` pattern). -/
def strOr (s d : String) : String := if s = "" then d else s

/-- Pack a list of Lean strings as a JS array of strings. -/
def jstrArr (ss : List String) : JValue := jarr (ss.map .str)

/-- The names of the entries of `componentRegistry` (src/registry/index.ts
lines 236–342), in declaration order; `registryMap` is keyed by exactly
these. -/
def registryNames : List String :=
  ["AppShell", "NavigationBar", "HeroSection", "FeatureGrid", "PricingTable",
   "FormBuilder", "DataTable", "CardList", "ChartView", "SettingsPanel",
   "EmptyState", "StatsRow", "UserProfile", "Sidebar", "Footer"]

/-- `registryMap.has name`: exact, case-sensitive string lookup. -/
def registryHas (name : String) : Bool := registryNames.contains name

/-
Per-component prop normalizers (normalizeBlueprint.ts lines 82–376).  Each
returns the props as they stand when the function returns or throws,
together with the text of the thrown error if one was raised (the source
mutates `props` in place, so on a throw the partial updates persist).  None
of the fifteen bodies pushes onto the warnings log, so the unused
`warnings`/`sectionId` parameters are omitted here.
-/

/-- `propNormalizers.NavigationBar` (lines 84–103). -/
def normNavigationBar (p0 : Props) : Props × Option String :=
  let raw := nc (pget p0 "links") (nc (pget p0 "items") (nc (pget p0 "navItems") (jarr [])))
  let p := pset p0 "links" (jstrArr (toStringArray raw))
  let p :=
    if ¬(jTruthy (pget p "brand")) ∨ ¬(pget p "brand").isStr then
      pset p "brand" (.str (strOr (toSafeString (pget p "brand")) "App"))
    else p
  let p :=
    if jTruthy (pget p "ctaLabel") ∧ typeofObject (pget p "ctaLabel") then
      let o := pget p "ctaLabel"
      pset p "ctaLabel" (.str (toSafeString (nc (jsGetField o "label") o)))
    else p
  let p :=
    if jTruthy (pget p "cta") ∧ typeofObject (pget p "cta") ∧ ¬(jTruthy (pget p "ctaLabel")) then
      let cta := pget p "cta"
      pdel (pset p "ctaLabel" (.str (toSafeString (nc (jsGetField cta "label") cta)))) "cta"
    else p
  (p, none)

/-- `propNormalizers.HeroSection` (lines 105–115). -/
def normHeroSection (p0 : Props) : Props × Option String :=
  let p :=
    if jTruthy (pget p0 "headline") ∧ ¬(pget p0 "headline").isStr then
      pset p0 "headline" (.str (toSafeString (pget p0 "headline")))
    else p0
  let p :=
    if jTruthy (pget p "subheading") ∧ ¬(pget p "subheading").isStr then
      pset p "subheading" (.str (toSafeString (pget p "subheading")))
    else p
  let p :=
    if ¬(jTruthy (pget p "headline")) then
      pset p "headline" (nc (pget p "title") (nc (pget p "heading") (.str "Welcome")))
    else p
  let p :=
    if ¬(jTruthy (pget p "subheading")) ∧ jTruthy (pget p "subheadline") then
      pdel (pset p "subheading" (.str (toSafeString (pget p "subheadline")))) "subheadline"
    else p
  let p :=
    if ¬(jTruthy (pget p "primaryCta")) ∧ jTruthy (pget p "ctaLabel") then
      pdel (pset p "primaryCta" (.str (toSafeString (pget p "ctaLabel")))) "ctaLabel"
    else p
  let p :=
    if ¬(jTruthy (pget p "primaryCta")) ∧ jTruthy (pget p "ctaHref") then
      pset p "primaryCta" (.str "Get Started")
    else p
  (p, none)

/-- Element mapping of `propNormalizers.FeatureGrid` (lines 119–130). -/
def featureGridItem (f : JValue) : JValue :=
  if f.isStr then jobj [("title", f), ("description", .str "")]
  else if typeofObject f ∧ f ≠ JValue.null then
    jobj [("icon", .str (toSafeString (nc (jsGetField f "icon") (.str "")))),
          ("title", .str (toSafeString (nc (jsGetField f "title") (nc (jsGetField f "name") (.str "Feature"))))),
          ("description", .str (toSafeString (nc (jsGetField f "description") (nc (jsGetField f "desc") (.str "")))))]
  else jobj [("title", .str (toSafeString f)), ("description", .str "")]

/-- `propNormalizers.FeatureGrid` (lines 117–135). -/
def normFeatureGrid (p0 : Props) : Props × Option String :=
  let rawFeatures := ensureArray (pget p0 "features")
  let p := pset p0 "features" (jarr (rawFeatures.map featureGridItem))
  let p :=
    if jTruthy (pget p "columns") ∧ ¬(pget p "columns").isNum then
      pset p "columns" (.num (match jsParseInt (jsToString (pget p "columns")) with
        | some n => if n = 0 then 3 else n
        | none => 3))
    else p
  (p, none)

/-- Element mapping of `propNormalizers.PricingTable` (lines 140–151). -/
def pricingTier (t : JValue) : JValue :=
  if ¬(typeofObject t) ∨ t = JValue.null then
    jobj [("name", .str "Plan"), ("price", .str "$0"), ("features", jarr [])]
  else
    jobj [("name", .str (toSafeString (nc (jsGetField t "name") (.str "Plan")))),
          ("price", .str (toSafeString (nc (jsGetField t "price") (.str "$0")))),
          ("period",
            if jTruthy (jsGetField t "period") then .str (toSafeString (jsGetField t "period"))
            else .undefined),
          ("features", jstrArr (toStringArray (nc (jsGetField t "features") (jarr [])))),
          ("highlighted", .bool (jsGetField t "highlighted" == JValue.bool true)),
          ("ctaLabel",
            if jTruthy (jsGetField t "ctaLabel") then .str (toSafeString (jsGetField t "ctaLabel"))
            else if jTruthy (jsGetField t "cta") then .str (toSafeString (jsGetField t "cta"))
            else .undefined)]

/-- `propNormalizers.PricingTable` (lines 137–154). -/
def normPricingTable (p0 : Props) : Props × Option String :=
  let rawTiers := ensureArray (nc (pget p0 "tiers") (nc (pget p0 "plans") (jarr [])))
  let p := pset p0 "tiers" (jarr (rawTiers.map pricingTier))
  (pdel p "plans", none)

def formBuilderValidTypes : List String := ["text", "email", "number", "textarea", "select", "checkbox"]

/-- Element mapping of `propNormalizers.FormBuilder` (lines 158–171). -/
def formBuilderField (f : JValue) : JValue :=
  if ¬(typeofObject f) ∨ f = JValue.null then
    jobj [("name", .str "field"), ("label", .str (toSafeString f)), ("type", .str "text")]
  else
    let ty :=
      if formBuilderValidTypes.contains (jsToString (jsGetField f "type")) then
        jsToString (jsGetField f "type")
      else "text"
    jobj [("name", .str (toSafeString (nc (jsGetField f "name") (nc (jsGetField f "label") (.str "field"))))),
          ("label", .str (toSafeString (nc (jsGetField f "label") (nc (jsGetField f "name") (.str "Field"))))),
          ("type", .str ty),
          ("placeholder",
            if jTruthy (jsGetField f "placeholder") then .str (toSafeString (jsGetField f "placeholder"))
            else .undefined),
          ("options",
            if jTruthy (jsGetField f "options") then jstrArr (toStringArray (jsGetField f "options"))
            else .undefined),
          ("required", .bool (jsGetField f "required" == JValue.bool true))]

/-- `propNormalizers.FormBuilder` (lines 156–174). -/
def normFormBuilder (p0 : Props) : Props × Option String :=
  let rawFields := ensureArray (nc (pget p0 "fields") (jarr []))
  let p := pset p0 "fields" (jarr (rawFields.map formBuilderField))
  let p :=
    if jTruthy (pget p "submitLabel") ∧ ¬(pget p "submitLabel").isStr then
      pset p "submitLabel" (.str (toSafeString (pget p "submitLabel")))
    else p
  (p, none)

/-- Column mapping of `propNormalizers.DataTable` (lines 179–186). -/
def dataTableColumn (c : JValue) : JValue :=
  if c.isStr then c
  else if typeofObject c ∧ c ≠ JValue.null then
    .str (toSafeString (nc (jsGetField c "label") (nc (jsGetField c "key") (nc (jsGetField c "name") c))))
  else .str (toSafeString c)

/-- Row mapping of `propNormalizers.DataTable` (lines 189–198). -/
def dataTableRow (r : JValue) : JValue :=
  if ¬(typeofObject r) ∨ r = JValue.null then jobj []
  else jobj ((jsEntries r).map fun e => (e.1, if e.2.isNum then e.2 else .str (toSafeString e.2)))

/-- `propNormalizers.DataTable` (lines 176–201). -/
def normDataTable (p0 : Props) : Props × Option String :=
  let rawCols := ensureArray (nc (pget p0 "columns") (jarr []))
  let p := pset p0 "columns" (jarr (rawCols.map dataTableColumn))
  let rawRows := ensureArray (nc (pget p "rows") (nc (pget p "data") (jarr [])))
  let p := pset p "rows" (jarr (rawRows.map dataTableRow))
  (pdel p "data", none)

/-- Card mapping of `propNormalizers.CardList` (lines 205–218); the spread of
`{metadata: tags.join(", ")}` overwrites the `metadata` entry in place when
`tags` is truthy. -/
def cardListCard (c : JValue) : JValue :=
  if c.isStr then jobj [("title", c)]
  else if ¬(typeofObject c) ∨ c = JValue.null then jobj [("title", .str (toSafeString c))]
  else
    let metadataVal :=
      if jTruthy (jsGetField c "tags") then
        JValue.str (String.intercalate ", " (toStringArray (jsGetField c "tags")))
      else if jTruthy (jsGetField c "metadata") then .str (toSafeString (jsGetField c "metadata"))
      else .undefined
    jobj [("title", .str (toSafeString (nc (jsGetField c "title") (nc (jsGetField c "name") (.str "Card"))))),
          ("description",
            if jTruthy (jsGetField c "description") then .str (toSafeString (jsGetField c "description"))
            else .undefined),
          ("badge",
            if jTruthy (jsGetField c "badge") then .str (toSafeString (jsGetField c "badge"))
            else .undefined),
          ("imageUrl",
            if jTruthy (jsGetField c "imageUrl") then .str (toSafeString (jsGetField c "imageUrl"))
            else .undefined),
          ("metadata", metadataVal)]

def cardListValidLayouts : List String := ["vertical", "horizontal", "grid"]

/-- `propNormalizers.CardList` (lines 203–226). -/
def normCardList (p0 : Props) : Props × Option String :=
  let rawCards := ensureArray (nc (pget p0 "cards") (nc (pget p0 "items") (jarr [])))
  let p := pset p0 "cards" (jarr (rawCards.map cardListCard))
  let p := pdel p "items"
  let p :=
    if jTruthy (pget p "layout") ∧ ¬(cardListValidLayouts.contains (jsToString (pget p "layout"))) then
      pset p "layout" (.str "vertical")
    else p
  (p, none)

/-- Datum mapping of `propNormalizers.ChartView` (lines 230–237). -/
def chartDatum (d : JValue) : JValue :=
  if ¬(typeofObject d) ∨ d = JValue.null then
    jobj [("label", .str (toSafeString d)), ("value", .num 0)]
  else
    jobj [("label", .str (toSafeString (nc (jsGetField d "label") (nc (jsGetField d "name") (.str ""))))),
          ("value",
            if (jsGetField d "value").isNum then jsGetField d "value"
            else .num ((jsParseFloat (jsToString (jsGetField d "value"))).getD 0))]

def chartValidTypes : List String := ["bar", "line", "pie"]

/-- `propNormalizers.ChartView` (lines 228–260).  `props.data` is always the
array assigned at the top, so the `!Array.isArray` disjunct is decided by
`rawData.length`; reading `.data` off a nullish first dataset throws. -/
def normChartView (p0 : Props) : Props × Option String :=
  let rawData := ensureArray (nc (pget p0 "data") (jarr []))
  let p := pset p0 "data" (jarr (rawData.map chartDatum))
  let p :=
    if jTruthy (pget p "chartType") ∧ ¬(jTruthy (pget p "type")) then
      pdel (pset p "type" (pget p "chartType")) "chartType"
    else p
  let p :=
    if jTruthy (pget p "type") ∧ ¬(chartValidTypes.contains (jsToString (pget p "type"))) then
      pset p "type" (.str "bar")
    else p
  if rawData.length = 0 then
    if jTruthy (pget p "labels") ∧ jTruthy (pget p "datasets") then
      let labels := toStringArray (pget p "labels")
      let ds := ensureArray (pget p "datasets")
      match ds with
      | [] => (pdel (pdel p "labels") "datasets", none)
      | first :: _ =>
        if first.isNullish then (p, some (jsTypeError first "data"))
        else
          let values := ensureArray (nc (jsGetField first "data") (jarr []))
          let newData := labels.enum.map fun e =>
            jobj [("label", .str e.2),
                  ("value",
                    let v := (values.get? e.1).getD JValue.undefined
                    if v.isNum then v else .num ((jsParseFloat (jsToString v)).getD 0))]
          (pdel (pdel (pset p "data" (jarr newData)) "labels") "datasets", none)
    else (p, none)
  else (p, none)

/-- Grouped-section flattening of `propNormalizers.SettingsPanel`
(lines 266–273). -/
def settingsFlatItems (sec : JValue) : List JValue :=
  if typeofObject sec ∧ sec ≠ JValue.null then
    ensureArray (nc (jsGetField sec "settings") (nc (jsGetField sec "items") (jarr [])))
  else []

def settingsValidTypes : List String := ["toggle", "text", "select"]

/-- Item mapping of `propNormalizers.SettingsPanel` (lines 280–294). -/
def settingsItem (s : JValue) : JValue :=
  if ¬(typeofObject s) ∨ s = JValue.null then
    jobj [("label", .str (toSafeString s)), ("type", .str "text")]
  else
    let ty :=
      if settingsValidTypes.contains (jsToString (jsGetField s "type")) then
        jsToString (jsGetField s "type")
      else "text"
    let value0 := jsGetField s "value"
    let value1 := if typeofObject value0 ∧ value0 ≠ JValue.null then JValue.str (toSafeString value0) else value0
    jobj [("label", .str (toSafeString (nc (jsGetField s "label") (nc (jsGetField s "key") (.str "Setting"))))),
          ("description",
            if jTruthy (jsGetField s "description") then .str (toSafeString (jsGetField s "description"))
            else .undefined),
          ("type", .str ty),
          ("value",
            if value1 ≠ JValue.undefined then (if value1.isBool then value1 else .str (toSafeString value1))
            else .undefined),
          ("options",
            if jTruthy (jsGetField s "options") then jstrArr (toStringArray (jsGetField s "options"))
            else .undefined)]

/-- `propNormalizers.SettingsPanel` (lines 262–296). -/
def normSettingsPanel (p0 : Props) : Props × Option String :=
  let p :=
    if jTruthy (pget p0 "sections") ∧ ¬(jTruthy (pget p0 "settings")) then
      let secs := ensureArray (pget p0 "sections")
      let flat := secs.flatMap settingsFlatItems
      if 0 < flat.length then pdel (pset p0 "settings" (jarr flat)) "sections" else p0
    else p0
  let rawSettings := ensureArray (nc (pget p "settings") (jarr []))
  (pset p "settings" (jarr (rawSettings.map settingsItem)), none)

def statsValidTrends : List String := ["up", "down", "neutral"]

/-- Stat mapping of `propNormalizers.StatsRow` (lines 300–310). -/
def statsRowStat (s : JValue) : JValue :=
  if ¬(typeofObject s) ∨ s = JValue.null then
    jobj [("label", .str (toSafeString s)), ("value", .str "0")]
  else
    jobj [("label", .str (toSafeString (nc (jsGetField s "label") (nc (jsGetField s "name") (.str "Stat"))))),
          ("value", .str (toSafeString (nc (jsGetField s "value") (.str "0")))),
          ("change",
            if jTruthy (jsGetField s "change") then .str (toSafeString (jsGetField s "change"))
            else .undefined),
          ("trend",
            if statsValidTrends.contains (jsToString (jsGetField s "trend")) then
              .str (jsToString (jsGetField s "trend"))
            else .undefined)]

/-- `propNormalizers.StatsRow` (lines 298–312). -/
def normStatsRow (p0 : Props) : Props × Option String :=
  (pset p0 "stats" (jarr ((ensureArray (nc (pget p0 "stats") (jarr []))).map statsRowStat)), none)

/-- `propNormalizers.UserProfile` (lines 314–330).  Reading `.label` off a
nullish element of a `stats` array throws; the partially updated props are
what the catch site then sees. -/
def normUserProfile (p0 : Props) : Props × Option String :=
  let p :=
    if ¬(jTruthy (pget p0 "name")) ∨ ¬(pget p0 "name").isStr then
      pset p0 "name" (.str (strOr (toSafeString (pget p0 "name")) "User"))
    else p0
  let p :=
    if jTruthy (pget p "email") ∧ ¬(pget p "email").isStr then
      pset p "email" (.str (toSafeString (pget p "email")))
    else p
  let p :=
    if jTruthy (pget p "bio") ∧ ¬(pget p "bio").isStr then
      pset p "bio" (.str (toSafeString (pget p "bio")))
    else p
  let p :=
    if jTruthy (pget p "role") ∧ ¬(pget p "role").isStr then
      pset p "role" (.str (toSafeString (pget p "role")))
    else p
  let p :=
    if ¬(jTruthy (pget p "avatarUrl")) ∧ jTruthy (pget p "avatar") then
      pdel (pset p "avatarUrl" (.str (toSafeString (pget p "avatar")))) "avatar"
    else p
  if jTruthy (pget p "stats") ∧ (pget p "stats").isArr then
    let stats := ensureArray (pget p "stats")
    match stats.find? (fun s => s.isNullish) with
    | some bad => (p, some (jsTypeError bad "label"))
    | none =>
      let statsStr := String.intercalate " · " (stats.map fun s =>
        toSafeString (jsGetField s "label") ++ ": " ++ toSafeString (jsGetField s "value"))
      let p := if ¬(jTruthy (pget p "bio")) then pset p "bio" (.str statsStr) else p
      (pdel p "stats", none)
  else (p, none)

/-- Section mapping of `propNormalizers.Sidebar` (lines 334–341). -/
def sidebarSection (s : JValue) : JValue :=
  if ¬(typeofObject s) ∨ s = JValue.null then jobj [("items", jarr [.str (toSafeString s)])]
  else
    jobj [("heading",
            if jTruthy (jsGetField s "heading") then .str (toSafeString (jsGetField s "heading"))
            else if jTruthy (jsGetField s "title") then .str (toSafeString (jsGetField s "title"))
            else .undefined),
          ("items", jstrArr (toStringArray (nc (jsGetField s "items") (nc (jsGetField s "links") (jarr [])))))]

/-- `propNormalizers.Sidebar` (lines 332–345). -/
def normSidebar (p0 : Props) : Props × Option String :=
  let p := pset p0 "sections" (jarr ((ensureArray (nc (pget p0 "sections") (jarr []))).map sidebarSection))
  let p :=
    if jTruthy (pget p "brand") ∧ ¬(pget p "brand").isStr then
      pset p "brand" (.str (toSafeString (pget p "brand")))
    else p
  (p, none)

/-- Column mapping of `propNormalizers.Footer` (lines 350–357). -/
def footerColumn (c : JValue) : JValue :=
  if ¬(typeofObject c) ∨ c = JValue.null then
    jobj [("heading", .str (toSafeString c)), ("links", jarr [])]
  else
    jobj [("heading", .str (toSafeString (nc (jsGetField c "heading") (nc (jsGetField c "title") (nc (jsGetField c "name") (.str "Links")))))),
          ("links", jstrArr (toStringArray (nc (jsGetField c "links") (nc (jsGetField c "items") (jarr [])))))]

/-- `propNormalizers.Footer` (lines 347–361). -/
def normFooter (p0 : Props) : Props × Option String :=
  let p := pset p0 "columns" (jarr ((ensureArray (nc (pget p0 "columns") (jarr []))).map footerColumn))
  let p :=
    if jTruthy (pget p "brand") ∧ ¬(pget p "brand").isStr then
      pset p "brand" (.str (toSafeString (pget p "brand")))
    else p
  let p :=
    if jTruthy (pget p "copyright") ∧ ¬(pget p "copyright").isStr then
      pset p "copyright" (.str (toSafeString (pget p "copyright")))
    else p
  (p, none)

/-- `propNormalizers.AppShell` (lines 363–368). -/
def normAppShell (p0 : Props) : Props × Option String :=
  let p :=
    if ¬(jTruthy (pget p0 "appName")) ∨ ¬(pget p0 "appName").isStr then
      pset p0 "appName" (.str (strOr (toSafeString (pget p0 "appName")) "App"))
    else p0
  let p :=
    if jTruthy (pget p "tagline") ∧ ¬(pget p "tagline").isStr then
      pset p "tagline" (.str (toSafeString (pget p "tagline")))
    else p
  let p :=
    if jTruthy (pget p "sidebarItems") then
      pset p "sidebarItems" (jstrArr (toStringArray (pget p "sidebarItems")))
    else p
  (p, none)

/-- `propNormalizers.EmptyState` (lines 370–375). -/
def normEmptyState (p0 : Props) : Props × Option String :=
  let p :=
    if ¬(jTruthy (pget p0 "title")) ∨ ¬(pget p0 "title").isStr then
      pset p0 "title" (.str (strOr (toSafeString (pget p0 "title")) "Nothing here yet"))
    else p0
  let p :=
    if jTruthy (pget p "description") ∧ ¬(pget p "description").isStr then
      pset p "description" (.str (toSafeString (pget p "description")))
    else p
  let p :=
    if jTruthy (pget p "icon") ∧ ¬(pget p "icon").isStr then
      pset p "icon" (.str (toSafeString (pget p "icon")))
    else p
  (p, none)

/-- The `propNormalizers` dispatch table (lines 82–376): string-keyed lookup
over exactly the fifteen registered component names. -/
def propNormalizers (name : String) : Option (Props → Props × Option String) :=
  if name = "NavigationBar" then some normNavigationBar
  else if name = "HeroSection" then some normHeroSection
  else if name = "FeatureGrid" then some normFeatureGrid
  else if name = "PricingTable" then some normPricingTable
  else if name = "FormBuilder" then some normFormBuilder
  else if name = "DataTable" then some normDataTable
  else if name = "CardList" then some normCardList
  else if name = "ChartView" then some normChartView
  else if name = "SettingsPanel" then some normSettingsPanel
  else if name = "StatsRow" then some normStatsRow
  else if name = "UserProfile" then some normUserProfile
  else if name = "Sidebar" then some normSidebar
  else if name = "Footer" then some normFooter
  else if name = "AppShell" then some normAppShell
  else if name = "EmptyState" then some normEmptyState
  else none

/-- The warning tag union of `NormalizationWarning` (src/types/blueprint.ts
lines 78–83). -/
inductive WarningType where
  | droppedComponent
  | fixedProp
  | defaultApplied
  | invalidSection
  deriving DecidableEq

/-- `NormalizationWarning`; the optional fields record whether the JS object
literal at the push site carried the key. -/
structure NormalizationWarning where
  type : WarningType
  sectionId : Option String
  componentName : Option String
  detail : String
  deriving DecidableEq

/-- `BlueprintComponent` (types/blueprint.ts lines 23–28). -/
structure BlueprintComponent where
  componentName : String
  props : Props
  deriving DecidableEq

/-- `BlueprintSection` (types/blueprint.ts lines 30–37); the `heading`
property is written unconditionally (line 449), possibly as `undefined`. -/
structure BlueprintSection where
  id : String
  heading : JValue
  components : List BlueprintComponent
  deriving DecidableEq

/-- `UIBlueprint` (types/blueprint.ts lines 86–115) restricted to the fields
the normalizer writes (lines 512–518); `explanation` and `styleHints` keep
their JS value (`undefined` when absent, and `explanation` keeps a raw
non-object truthy input verbatim). -/
structure UIBlueprint where
  appType : String
  layout : String
  sections : List BlueprintSection
  explanation : JValue
  styleHints : JValue
  deriving DecidableEq

/-- `NormalizationResult` (normalizeBlueprint.ts lines 25–29). -/
structure NormalizationResult where
  blueprint : UIBlueprint
  warnings : List NormalizationWarning
  rawInput : JValue
  deriving DecidableEq

/-- Name extraction of `normalizeComponent` (line 385):
`String(comp.componentName ?? comp.component ?? comp.type ?? "")`. -/
def extractName (comp : JValue) : String :=
  jsToString (nc (jsGetField comp "componentName")
    (nc (jsGetField comp "component") (nc (jsGetField comp "type") (.str ""))))

/-- Raw-prop extraction of `normalizeComponent` (lines 399–408). -/
def extractRawProps (comp : JValue) : Props :=
  let pv := jsGetField comp "props"
  if jTruthy pv ∧ typeofObject pv ∧ ¬ pv.isArr then jsEntries pv
  else pdel (pdel (pdel (jsEntries comp) "componentName") "component") "type"

/-- The final `sanitizeValue(props) as Record<string, unknown>` step
(line 421). -/
def sanitizeProps (p : Props) : Props := (sanitizeJFields (JFields.ofL p)).toL

/-- The dispatch step of `normalizeComponent` (lines 411–418): run the
per-type normalizer when one is registered for `name`, identity otherwise. -/
def runNormalizer (name : String) (p : Props) : Props × Option String :=
  match propNormalizers name with
  | some f => f p
  | none => (p, none)

/-- The error text (if any) the dispatched per-type normalizer throws for
this raw component — the `err` the `catch` at lines 415–417 sees. -/
def componentNormalizerError (comp : JValue) : Option String :=
  let name := extractName comp
  if name = "" then none
  else if ¬ registryHas name then none
  else (runNormalizer name (extractRawProps comp)).2

/-- `normalizeComponent` (lines 380–424), returning the component (or `null`)
together with the warnings it pushed, in push order. -/
def normalizeComponent (comp : JValue) (sectionId : String) :
    Option BlueprintComponent × List NormalizationWarning :=
  let name := extractName comp
  if name = "" then
    (none, [⟨.droppedComponent, some sectionId, some "(empty)", "Component has no name"⟩])
  else if ¬ registryHas name then
    (none, [⟨.droppedComponent, some sectionId, some name,
             "Unknown component \"" ++ name ++ "\" — not in registry"⟩])
  else
    let fe := runNormalizer name (extractRawProps comp)
    let ws : List NormalizationWarning :=
      match fe.2 with
      | some e => [⟨.fixedProp, some sectionId, some name, "Normalizer error: " ++ e⟩]
      | none => []
    (some ⟨name, sanitizeProps fe.1⟩, ws)

/-- The component loop of `normalizeSection` (lines 437–442): skip elements
that are not object-typed or are `null`, keep survivors in order. -/
def normalizeComponents (xs : List JValue) (sectionId : String) :
    List BlueprintComponent × List NormalizationWarning :=
  match xs with
  | [] => ([], [])
  | x :: tl =>
    if typeofObject x ∧ x ≠ JValue.null then
      let cw := normalizeComponent x sectionId
      let rest := normalizeComponents tl sectionId
      (cw.1.toList ++ rest.1, cw.2 ++ rest.2)
    else normalizeComponents tl sectionId

/-- `normalizeSection` (lines 428–450). -/
def normalizeSection (raw : JValue) (idx : Nat) :
    Option BlueprintSection × List NormalizationWarning :=
  let id := jsToString (nc (jsGetField raw "id") (.str ("section-" ++ toString idx)))
  let heading :=
    if jTruthy (jsGetField raw "heading") then JValue.str (toSafeString (jsGetField raw "heading"))
    else JValue.undefined
  let rawComps := ensureArray (nc (jsGetField raw "components") (jarr []))
  let cw := normalizeComponents rawComps id
  if cw.1.length = 0 then
    (none, cw.2 ++ [⟨.invalidSection, some id, none,
      "Section \"" ++ id ++ "\" has no valid components — dropped"⟩])
  else (some ⟨id, heading, cw.1⟩, cw.2)

/-- The section loop of `normalizeBlueprint` (lines 466–471): the positional
index advances over every raw element, including skipped non-objects. -/
def normalizeSections (xs : List JValue) (idx : Nat) :
    List BlueprintSection × List NormalizationWarning :=
  match xs with
  | [] => ([], [])
  | x :: tl =>
    if typeofObject x ∧ x ≠ JValue.null then
      let sw := normalizeSection x idx
      let rest := normalizeSections tl (idx + 1)
      (sw.1.toList ++ rest.1, sw.2 ++ rest.2)
    else normalizeSections tl (idx + 1)

/-- The synthesized fallback section (lines 476–487). -/
def fallbackSection : BlueprintSection :=
  ⟨"fallback", .str "Blueprint Generation",
   [⟨"EmptyState",
     [("icon", .str "🔧"),
      ("title", .str "Couldn\x27t render this blueprint"),
      ("description", .str "The AI generated a response, but no known components could be extracted. Try rephrasing your request.")]⟩]⟩

/-- One element of the list-shaped `componentRationale` mapping
(lines 498–501). -/
def rationalePair (r : JValue) : JValue :=
  jobj [("sectionId", .str (toSafeString (nc (jsGetField r "sectionId") (nc (jsGetField r "section") (.str ""))))),
        ("rationale", .str (toSafeString (nc (jsGetField r "rationale") (nc (jsGetField r "reason") (.str "")))))]

/-- The `.map` over a list-shaped `componentRationale`: reading `.sectionId`
off a nullish element throws out of `normalizeBlueprint` (nothing catches
it). -/
def rationaleList : List JValue → Except String (List JValue)
  | [] => .ok []
  | r :: tl =>
    if r.isNullish then .error (jsTypeError r "sectionId")
    else do
      let rest ← rationaleList tl
      .ok (rationalePair r :: rest)

/-- `componentRationale` normalization (lines 496–507): a list stays a list
of `{sectionId, rationale}` records, a keyed mapping stays a keyed mapping
with stringified values, anything else becomes `{}`. -/
def normalizeRationale (cr : JValue) : Except String JValue :=
  if typeofObject cr ∧ cr ≠ JValue.null then
    match cr with
    | .arr xs => do
      let ys ← rationaleList xs.toL
      .ok (jarr ys)
    | v => .ok (jobj ((jsEntries v).map fun e => (e.1, JValue.str (toSafeString e.2))))
  else .ok (jobj [])

/-- Explanation normalization (lines 491–510): a truthy object is rebuilt in
canonical form, anything else is passed through verbatim. -/
def normalizeExplanationField (v : JValue) : Except String JValue :=
  if jTruthy v ∧ typeofObject v then
    match normalizeRationale (jsGetField v "componentRationale") with
    | .error e => .error e
    | .ok cr =>
      .ok (jobj [("reasoning", .str (toSafeString (nc (jsGetField v "reasoning") (.str "")))),
                 ("componentRationale", cr),
                 ("suggestedImprovements",
                  jstrArr (toStringArray (nc (jsGetField v "suggestedImprovements")
                    (nc (jsGetField v "suggestions") (jarr [])))))])
  else .ok v

def layoutOptions : List String := ["single-page", "sidebar-detail", "multi-section", "dashboard"]

/-- `normalizeBlueprint` (lines 454–521).  Property reads on a nullish input
throw immediately (line 458), and a nullish entry in a list-shaped
`componentRationale` throws from the explanation block; both surface as
`.error`.  Every other input yields `.ok`. -/
def normalizeBlueprint (raw : JValue) : Except String NormalizationResult :=
  if raw.isNullish then .error (jsTypeError raw "appType")
  else
    let appType := toSafeString (nc (jsGetField raw "appType")
      (nc (jsGetField raw "app_type") (nc (jsGetField raw "type") (.str "app"))))
    let layoutStr := jsToString (jsGetField raw "layout")
    let layout := if layoutOptions.contains layoutStr then layoutStr else "single-page"
    let rawSections := ensureArray (nc (jsGetField raw "sections") (jarr []))
    let sw := normalizeSections rawSections 0
    let sections :=
      if sw.1.length = 0 then [fallbackSection] else sw.1
    let ws :=
      if sw.1.length = 0 then
        sw.2 ++ [⟨.invalidSection, none, none, "No valid sections found — adding fallback empty state"⟩]
      else sw.2
    match normalizeExplanationField (jsGetField raw "explanation") with
    | .error e => .error e
    | .ok explanation =>
      let styleHints :=
        if jTruthy (jsGetField raw "styleHints") then sanitizeValue (jsGetField raw "styleHints")
        else JValue.undefined
      .ok ⟨⟨appType, layout, sections, explanation, styleHints⟩, ws, raw⟩

/-- The JS object a `BlueprintComponent` is, when the returned blueprint is
fed back to the normalizer. -/
def encodeComponent (c : BlueprintComponent) : JValue :=
  jobj [("componentName", .str c.componentName), ("props", jobj c.props)]

/-- The JS object a `BlueprintSection` is (key order of line 449). -/
def encodeSection (s : BlueprintSection) : JValue :=
  jobj [("id", .str s.id), ("heading", s.heading),
        ("components", jarr (s.components.map encodeComponent))]

/-- The JS object a `UIBlueprint` is (key order of lines 512–518). -/
def encodeBlueprint (b : UIBlueprint) : JValue :=
  jobj [("appType", .str b.appType), ("layout", .str b.layout),
        ("sections", jarr (b.sections.map encodeSection)),
        ("explanation", b.explanation), ("styleHints", b.styleHints)]

/-- How many raw components with extracted name `name` the pipeline visits:
the same traversal as lines 435–440 / 463–469 (non-object elements are
skipped, the rest have their name extracted as in line 385). -/
def countCompsNamed (xs : List JValue) (name : String) : Nat :=
  match xs with
  | [] => 0
  | x :: tl =>
    (if (typeofObject x ∧ x ≠ JValue.null) ∧ extractName x = name then 1 else 0)
      + countCompsNamed tl name

def countSectionComps (s : JValue) (name : String) : Nat :=
  countCompsNamed (ensureArray (nc (jsGetField s "components") (jarr []))) name

def countSectionsComps (xs : List JValue) (name : String) : Nat :=
  match xs with
  | [] => 0
  | x :: tl =>
    (if typeofObject x ∧ x ≠ JValue.null then countSectionComps x name else 0)
      + countSectionsComps tl name

/-- Occurrence count of components bearing extracted name `name` in a raw
input document. -/
def countComponentsNamed (raw : JValue) (name : String) : Nat :=
  countSectionsComps (ensureArray (nc (jsGetField raw "sections") (jarr []))) name

theorem registryHas_ne_empty {n : String} (h : registryHas n = true) : n ≠ "" := by
  intro he
  subst he
  exact absurd h (by decide)

theorem normalizeComponent_of_registered (comp : JValue) (sid : String)
    (h : registryHas (extractName comp) = true) :
    normalizeComponent comp sid =
      (some ⟨extractName comp, sanitizeProps (runNormalizer (extractName comp) (extractRawProps comp)).1⟩,
       match (runNormalizer (extractName comp) (extractRawProps comp)).2 with
       | some e => [⟨.fixedProp, some sid, some (extractName comp), "Normalizer error: " ++ e⟩]
       | none => []) := by
  have hne : extractName comp ≠ "" := registryHas_ne_empty h
  simp [normalizeComponent, hne, h]

theorem normalizeComponent_none_cases (comp : JValue) (sid : String)
    (h : (normalizeComponent comp sid).1 = none) :
    extractName comp = "" ∨ registryHas (extractName comp) = false := by
  by_cases h1 : extractName comp = ""
  · exact Or.inl h1
  · by_cases h2 : registryHas (extractName comp) = true
    · rw [normalizeComponent_of_registered comp sid h2] at h
      simp at h
    · exact Or.inr (by simpa using h2)

theorem normalizeComponent_registered (comp : JValue) (sid : String)
    (c : BlueprintComponent) (h : (normalizeComponent comp sid).1 = some c) :
    registryHas c.componentName = true ∧ c.componentName = extractName comp := by
  by_cases h1 : extractName comp = ""
  · simp [normalizeComponent, h1] at h
  · by_cases h2 : registryHas (extractName comp) = true
    · rw [normalizeComponent_of_registered comp sid h2] at h
      simp at h
      subst h
      exact ⟨h2, rfl⟩
    · simp [normalizeComponent, h1, h2] at h

/-- Claim C3 — given `{}` as input, the normalizer returns a blueprint with
exactly one section containing exactly one component, and exactly one warning,
of type `invalid-section`. -/
theorem claim3_fallback_synthesis :
    (normalizeBlueprint (jobj [])).map
      (fun r => (r.blueprint.sections.map (fun s => s.components.length),
                 r.warnings.map (fun w => w.type)))
      = .ok ([1], [.invalidSection]) := by
  rfl

/-- Claim C5 — when the dispatched per-type normalizer throws, the error is
caught at the call site: exactly one `fixed-prop` warning carrying the
exception text in its detail is pushed, the component is still returned; and
a component is only ever dropped for a missing or unknown name. -/
theorem claim5_normalizer_error_caught (comp : JValue) (sid msg : String)
    (h : componentNormalizerError comp = some msg) :
    ((normalizeComponent comp sid).1.isSome = true
      ∧ (normalizeComponent comp sid).2 =
          [⟨.fixedProp, some sid, some (extractName comp), "Normalizer error: " ++ msg⟩])
    ∧ (∀ comp' sid', (normalizeComponent comp' sid').1 = none →
        extractName comp' = "" ∨ registryHas (extractName comp') = false) := by
  refine ⟨?_, fun comp' sid' h' => normalizeComponent_none_cases comp' sid' h'⟩
  have h1 : extractName comp ≠ "" := by
    intro he
    simp [componentNormalizerError, he] at h
  have h2 : registryHas (extractName comp) = true := by
    by_cases h2' : registryHas (extractName comp) = true
    · exact h2'
    · simp [componentNormalizerError, h1, h2'] at h
  have he : (runNormalizer (extractName comp) (extractRawProps comp)).2 = some msg := by
    simpa [componentNormalizerError, h1, h2] using h
  rw [normalizeComponent_of_registered comp sid h2, he]
  simp

/-- The UserProfile component whose `stats` array contains `null`: its
normalizer throws a `TypeError` while mapping over the stats. -/
def userProfileThrowComp : JValue :=
  jobj [("componentName", .str "UserProfile"), ("props", jobj [("stats", jarr [.null])])]

mutual

/-- Recursive kind check: the value tree holds only strings, numbers,
booleans, `null`, `undefined`, arrays and string-keyed mappings (no exotic
values anywhere). -/
def sanitizedKinds : JValue → Bool
  | .exotic _ => false
  | .arr xs => sanitizedKindsL xs
  | .obj fs => sanitizedKindsF fs
  | _ => true

def sanitizedKindsL : JList → Bool
  | .nil => true
  | .cons v tl => sanitizedKinds v && sanitizedKindsL tl

def sanitizedKindsF : JFields → Bool
  | .nil => true
  | .cons _ v tl => sanitizedKinds v && sanitizedKindsF tl

end

mutual

/-- Kind check worded exactly as claim C6: the tree may hold only strings,
numbers, booleans, `null`, arrays and string-keyed mappings — `undefined` is
not in the claim's list. -/
def claimRenderKinds : JValue → Bool
  | .exotic _ => false
  | .undefined => false
  | .arr xs => claimRenderKindsL xs
  | .obj fs => claimRenderKindsF fs
  | _ => true

def claimRenderKindsL : JList → Bool
  | .nil => true
  | .cons v tl => claimRenderKinds v && claimRenderKindsL tl

def claimRenderKindsF : JFields → Bool
  | .nil => true
  | .cons _ v tl => claimRenderKinds v && claimRenderKindsF tl

end

mutual

theorem sanitizedKinds_sanitizeValue : ∀ v : JValue, sanitizedKinds (sanitizeValue v) = true
  | .null => rfl
  | .undefined => rfl
  | .str _ => rfl
  | .num _ => rfl
  | .bool _ => rfl
  | .arr xs => by simpa [sanitizeValue, sanitizedKinds] using sanitizedKindsL_sanitizeJList xs
  | .obj fs => by simpa [sanitizeValue, sanitizedKinds] using sanitizedKindsF_sanitizeJFields fs
  | .exotic _ => rfl

theorem sanitizedKindsL_sanitizeJList : ∀ xs : JList, sanitizedKindsL (sanitizeJList xs) = true
  | .nil => rfl
  | .cons v tl => by
    simp [sanitizeJList, sanitizedKindsL, sanitizedKinds_sanitizeValue v,
      sanitizedKindsL_sanitizeJList tl]

theorem sanitizedKindsF_sanitizeJFields : ∀ fs : JFields, sanitizedKindsF (sanitizeJFields fs) = true
  | .nil => rfl
  | .cons k v tl => by
    simp [sanitizeJFields, sanitizedKindsF, sanitizedKinds_sanitizeValue v,
      sanitizedKindsF_sanitizeJFields tl]

end

theorem sanitizeJList_ofL (xs : List JValue) :
    sanitizeJList (JList.ofL xs) = JList.ofL (xs.map sanitizeValue) := by
  induction xs with
  | nil => rfl
  | cons x tl ih => simp [JList.ofL, sanitizeJList, ih]

theorem sanitizeJFields_ofL (fs : Props) :
    sanitizeJFields (JFields.ofL fs) = JFields.ofL (fs.map fun e => (e.1, sanitizeValue e.2)) := by
  induction fs with
  | nil => rfl
  | cons f tl ih => obtain ⟨k, v⟩ := f; simp [JFields.ofL, sanitizeJFields, ih]

/-- Claim C6 (amended) — `sanitizeValue` returns a tree holding only strings,
numbers, booleans, `null`, `undefined`, arrays and string-keyed mappings; it
is the identity on every primitive (including `null` and `undefined`, which
pass through unchanged), recurses element-wise on arrays and key-wise on
mappings with keys preserved verbatim, and converts any other exotic value
to a string via its safe textual rendering. -/
theorem claim6_amended :
    (∀ v : JValue, sanitizedKinds (sanitizeValue v) = true)
    ∧ (∀ s, sanitizeValue (.str s) = .str s)
    ∧ (∀ n, sanitizeValue (.num n) = .num n)
    ∧ (∀ b, sanitizeValue (.bool b) = .bool b)
    ∧ sanitizeValue .null = .null
    ∧ sanitizeValue .undefined = .undefined
    ∧ (∀ xs : List JValue, sanitizeValue (jarr xs) = jarr (xs.map sanitizeValue))
    ∧ (∀ fs : Props, sanitizeValue (jobj fs) = jobj (fs.map fun e => (e.1, sanitizeValue e.2)))
    ∧ (∀ s, sanitizeValue (.exotic s) = .str s) := by
  refine ⟨sanitizedKinds_sanitizeValue, fun s => rfl, fun n => rfl, fun b => rfl, rfl, rfl,
    ?_, ?_, fun s => rfl⟩
  · intro xs
    simp [jarr, sanitizeValue, sanitizeJList_ofL]
  · intro fs
    simp [jobj, sanitizeValue, sanitizeJFields_ofL]

/-- Counterexample to C6 as stated: `sanitizeValue` maps the JS value
`undefined` to itself, and `undefined` is not among the six kinds
("strings, numbers, booleans, null, arrays, and string-keyed mappings") the
claim allows in the output tree. -/
theorem claim6_counterexample :
    sanitizeValue JValue.undefined = JValue.undefined
    ∧ claimRenderKinds (sanitizeValue JValue.undefined) = false := by
  constructor
  · rfl
  · rfl

/-- Key-presence test (`"k" in obj`). -/
def phas (p : Props) (k : String) : Bool := p.any (fun e => decide (e.1 = k))

/-- The display-key rule worded exactly as claim C7: the value under the
first *present* key among `label`, `title`, `name`, `text`, regardless of
that value's type. -/
def claimFirstDisplay (p : Props) : Option JValue :=
  if phas p "label" then some (pget p "label")
  else if phas p "title" then some (pget p "title")
  else if phas p "name" then some (pget p "name")
  else if phas p "text" then some (pget p "text")
  else none

/-- Claim C7 (amended) — `toSafeString` is the identity on strings, the
decimal/boolean textual representation on numbers and booleans, `""` on
`null`/`undefined`; on an object it returns the value under the first key
among `label`, `title`, `name`, `text` that is present *with a string value*
(first such wins), otherwise a JSON text dump (arrays, having no display
keys, always take the JSON dump; the fixed placeholder for a throwing
serialization is unreachable on acyclic values). -/
theorem claim7_amended :
    (∀ s, toSafeString (.str s) = s)
    ∧ (∀ n : Int, toSafeString (.num n) = toString n)
    ∧ (∀ b, toSafeString (.bool b) = if b then "true" else "false")
    ∧ toSafeString .null = ""
    ∧ toSafeString .undefined = ""
    ∧ (∀ p : Props, toSafeString (jobj p) =
        (((strKey p "label").orElse fun _ => (strKey p "title").orElse fun _ =>
            (strKey p "name").orElse fun _ => strKey p "text").getD (jsonStringify (jobj p))))
    ∧ (∀ xs : List JValue, toSafeString (jarr xs) = jsonStringify (jarr xs))
    ∧ (∀ s, toSafeString (.exotic s) = s) := by
  refine ⟨fun s => rfl, fun n => rfl, fun b => rfl, rfl, rfl, ?_, fun xs => rfl, fun s => rfl⟩
  intro p
  show (match displayString (JFields.ofL p).toL with
        | some s => s
        | none => jsonStringify (.obj (JFields.ofL p))) = _
  rw [jfields_toL_ofL]
  unfold displayString
  cases strKey p "label" <;> cases strKey p "title" <;> cases strKey p "name" <;>
    cases strKey p "text" <;> simp [Option.orElse, jobj]

/-- Counterexample to C7 as stated: on `{label: 5, title: "T"}` the first
present display key is `label` (holding the number `5`), yet `toSafeString`
returns the title `"T"` — present-but-non-string keys are skipped, contrary
to "first present wins". -/
theorem claim7_counterexample :
    claimFirstDisplay [("label", JValue.num 5), ("title", JValue.str "T")] = some (JValue.num 5)
    ∧ toSafeString (jobj [("label", JValue.num 5), ("title", JValue.str "T")]) = "T"
    ∧ jsToString (JValue.num 5) = "5"
    ∧ ("T" : String) ≠ "5" := by
  refine ⟨rfl, rfl, rfl, ?_⟩
  decide

theorem ensureArray_scalar (v : JValue) (h1 : v.isArr = false) (h2 : v.isNullish = false) :
    ensureArray v = [v] := by
  cases v <;> simp_all [ensureArray, JValue.isArr, JValue.isNullish]

/-- Claim C8 (amended) — a list-typed field that the per-type normalizer
routes through `ensureArray` (such as `FeatureGrid.features`) turns a bare
non-nullish scalar into a single-element list carrying that value; but a
field routed through `toStringArray` (such as `NavigationBar.links`) maps a
bare scalar to the *empty* list instead. -/
theorem claim8_scalar_wrapped (v : JValue) (h1 : v.isArr = false) (h2 : v.isNullish = false) :
    pget (normFeatureGrid [("features", v)]).1 "features" = jarr [featureGridItem v]
    ∧ (∀ w : JValue, w.isArr = false → pget (normNavigationBar [("links", w)]).1 "links" = jarr []) := by
  constructor
  · have ha : ensureArray v = [v] := ensureArray_scalar v h1 h2
    simp [normFeatureGrid, pget, pset, ha, jTruthy]
  · intro w hw
    have hsw : toStringArray w = [] := by
      cases w <;> simp_all [toStringArray, JValue.isArr]
    have hu : JValue.undefined.isNullish = true := rfl
    have harr : toStringArray (JValue.arr (JList.ofL [])) = [] := rfl
    cases hn : w.isNullish <;>
      simp [normNavigationBar, pget, pset, pdel, nc, hn, hu, hsw, harr, jstrArr, jarr]

/-- Witness for C8 (amended): a bare string in `FeatureGrid.features` becomes
the one-element list with its record form. -/
theorem claim8_witness :
    pget (normFeatureGrid [("features", JValue.str "Fast")]).1 "features"
        = jarr [featureGridItem (JValue.str "Fast")]
    ∧ (∀ w : JValue, w.isArr = false →
        pget (normNavigationBar [("links", w)]).1 "links" = jarr []) :=
  claim8_scalar_wrapped (JValue.str "Fast") (by decide) (by decide)

/-- The NavigationBar component whose `links` field is a bare string. -/
def navScalarLinksComp : JValue :=
  jobj [("componentName", .str "NavigationBar"), ("props", jobj [("links", .str "Home")])]

/-- Counterexample to C8 as stated: `links` is semantically a list of strings,
yet a bare `"Home"` normalizes to the empty list, not to `["Home"]`. -/
theorem claim8_counterexample :
    ((normalizeComponent navScalarLinksComp "s0").1.map fun c => pget c.props "links")
        = some (jarr [])
    ∧ some (jarr ([] : List JValue)) ≠ some (jarr [JValue.str "Home"]) := by
  refine ⟨rfl, ?_⟩
  decide

theorem rationaleList_ok (xs : List JValue) (h : ∀ r ∈ xs, r.isNullish = false) :
    rationaleList xs = .ok (xs.map rationalePair) := by
  induction xs with
  | nil => rfl
  | cons r tl ih =>
    have hr : r.isNullish = false := h r (by simp)
    simp [rationaleList, hr, ih (fun r' hr' => h r' (by simp [hr'])), Bind.bind, Except.bind]

/-- Claim C9 (amended) — `componentRationale` is accepted both as a keyed
mapping and as a list of pair records, and each is normalized (values
stringified; list elements rebuilt as `{sectionId, rationale}` records), but
the output *retains the input's shape*: a mapping stays a mapping and a list
stays a list — the two shapes are not unified into one canonical output
shape. -/
theorem claim9_both_shapes_accepted (fs : Props) (xs : List JValue)
    (h : ∀ r ∈ xs, r.isNullish = false) :
    normalizeRationale (jobj fs) = .ok (jobj (fs.map fun e => (e.1, JValue.str (toSafeString e.2))))
    ∧ normalizeRationale (jarr xs) = .ok (jarr (xs.map rationalePair)) := by
  constructor
  · simp [normalizeRationale, jobj, typeofObject, jsEntries, jfields_toL_ofL]
  · simp [normalizeRationale, jarr, typeofObject, rationaleList_ok xs h, jlist_toL_ofL,
      Bind.bind, Except.bind]

/-- Witness for C9 (amended): one keyed mapping and one list of pair records,
both normalized with their shape retained. -/
theorem claim9_witness :
    normalizeRationale (jobj [("hero", JValue.str "why")])
        = .ok (jobj ([("hero", JValue.str "why")].map fun e => (e.1, JValue.str (toSafeString e.2))))
    ∧ normalizeRationale (jarr [jobj [("sectionId", JValue.str "hero"), ("rationale", JValue.str "why")]])
        = .ok (jarr ([jobj [("sectionId", JValue.str "hero"), ("rationale", JValue.str "why")]].map rationalePair)) :=
  claim9_both_shapes_accepted [("hero", JValue.str "why")]
    [jobj [("sectionId", JValue.str "hero"), ("rationale", JValue.str "why")]]
    (by decide)

/-- The shape of the `componentRationale` field of the normalized
explanation: `some true` for a list, `some false` for a keyed mapping. -/
def rationaleShapeOf (raw : JValue) : Option Bool :=
  match normalizeBlueprint raw with
  | .ok res =>
    match jsGetField res.blueprint.explanation "componentRationale" with
    | .arr _ => some true
    | .obj _ => some false
    | _ => none
  | .error _ => none

/-- Document whose explanation carries `componentRationale` as a keyed
mapping. -/
def rationaleMapInput : JValue :=
  jobj [("explanation", jobj [("componentRationale", jobj [("hero", .str "why")])])]

/-- Document whose explanation carries `componentRationale` as a list of
`{sectionId, rationale}` pairs. -/
def rationaleListInput : JValue :=
  jobj [("explanation", jobj [("componentRationale",
    jarr [jobj [("sectionId", .str "hero"), ("rationale", .str "why")]])])]

/-- Counterexample to C9 as stated: the two accepted input shapes normalize
to two *different* output shapes (mapping stays mapping, list stays list), so
there is no single canonical output shape. -/
theorem claim9_counterexample :
    rationaleShapeOf rationaleMapInput = some false
    ∧ rationaleShapeOf rationaleListInput = some true
    ∧ (some false : Option Bool) ≠ some true := by
  refine ⟨rfl, rfl, ?_⟩
  decide

/-- Witness for C5: the UserProfile normalizer throws on `stats: [null]`, the
component is kept and the single pushed warning is the `fixed-prop` one with
the exception text. -/
theorem claim5_witness :
    ((normalizeComponent userProfileThrowComp "s0").1.isSome = true
      ∧ (normalizeComponent userProfileThrowComp "s0").2 =
          [⟨.fixedProp, some "s0", some (extractName userProfileThrowComp),
            "Normalizer error: " ++ "TypeError: Cannot read properties of null (reading \x27label\x27)"⟩])
    ∧ (∀ comp' sid', (normalizeComponent comp' sid').1 = none →
        extractName comp' = "" ∨ registryHas (extractName comp') = false) :=
  claim5_normalizer_error_caught userProfileThrowComp "s0"
    "TypeError: Cannot read properties of null (reading \x27label\x27)" (by decide)

/-- The fallback warning pushed at line 475. -/
def fallbackWarning : NormalizationWarning :=
  ⟨.invalidSection, none, none, "No valid sections found — adding fallback empty state"⟩

/-- The section-loop output for a raw document (lines 463–471). -/
def rawSectionsOf (raw : JValue) : List JValue :=
  ensureArray (nc (jsGetField raw "sections") (jarr []))

theorem normalizeBlueprint_ok_inv (raw : JValue) (res : NormalizationResult)
    (h : normalizeBlueprint raw = .ok res) :
    res.blueprint.appType = toSafeString (nc (jsGetField raw "appType")
      (nc (jsGetField raw "app_type") (nc (jsGetField raw "type") (.str "app"))))
    ∧ res.blueprint.layout = (if layoutOptions.contains (jsToString (jsGetField raw "layout"))
        then jsToString (jsGetField raw "layout") else "single-page")
    ∧ res.blueprint.sections = (if (normalizeSections (rawSectionsOf raw) 0).1.length = 0
        then [fallbackSection] else (normalizeSections (rawSectionsOf raw) 0).1)
    ∧ res.warnings = (if (normalizeSections (rawSectionsOf raw) 0).1.length = 0
        then (normalizeSections (rawSectionsOf raw) 0).2 ++ [fallbackWarning]
        else (normalizeSections (rawSectionsOf raw) 0).2)
    ∧ normalizeExplanationField (jsGetField raw "explanation") = .ok res.blueprint.explanation := by
  by_cases hn : raw.isNullish = true
  · rw [normalizeBlueprint] at h
    simp [hn] at h
  · rw [normalizeBlueprint] at h
    simp only [hn, Bool.false_eq_true, if_false] at h
    rcases he : normalizeExplanationField (jsGetField raw "explanation") with e | expl
    · rw [he] at h
      simp at h
    · rw [he] at h
      rw [Except.ok.injEq] at h
      subst h
      exact ⟨rfl, rfl, rfl, rfl, rfl⟩

theorem normalizeComponent_warning_types (comp : JValue) (sid : String) :
    ∀ w ∈ (normalizeComponent comp sid).2,
      w.type = .droppedComponent ∨ w.type = .fixedProp := by
  intro w hw
  by_cases h1 : extractName comp = ""
  · simp [normalizeComponent, h1] at hw
    subst hw
    exact Or.inl rfl
  · by_cases h2 : registryHas (extractName comp) = true
    · rw [normalizeComponent_of_registered comp sid h2] at hw
      rcases hr : (runNormalizer (extractName comp) (extractRawProps comp)).2 with _ | e
      · rw [hr] at hw
        simp at hw
      · rw [hr] at hw
        simp at hw
        subst hw
        exact Or.inr rfl
    · simp [normalizeComponent, h1, h2] at hw
      subst hw
      exact Or.inl rfl

theorem normalizeComponents_warning_types (xs : List JValue) (sid : String) :
    ∀ w ∈ (normalizeComponents xs sid).2,
      w.type = .droppedComponent ∨ w.type = .fixedProp := by
  induction xs with
  | nil => intro w hw; simp [normalizeComponents] at hw
  | cons x tl ih =>
    intro w hw
    by_cases hx : typeofObject x ∧ x ≠ JValue.null
    · simp only [normalizeComponents, if_pos hx, List.mem_append] at hw
      rcases hw with hw | hw
      · exact normalizeComponent_warning_types x sid w hw
      · exact ih w hw
    · simp only [normalizeComponents, if_neg hx] at hw
      exact ih w hw

theorem normalizeSection_warning_types (raw : JValue) (idx : Nat) :
    ∀ w ∈ (normalizeSection raw idx).2,
      w.type = .droppedComponent ∨ w.type = .fixedProp ∨ w.type = .invalidSection := by
  intro w hw
  simp only [normalizeSection] at hw
  split at hw
  · simp only [List.mem_append, List.mem_singleton] at hw
    rcases hw with hw | hw
    · rcases normalizeComponents_warning_types _ _ w hw with h | h
      · exact Or.inl h
      · exact Or.inr (Or.inl h)
    · subst hw
      exact Or.inr (Or.inr rfl)
  · rcases normalizeComponents_warning_types _ _ w hw with h | h
    · exact Or.inl h
    · exact Or.inr (Or.inl h)

theorem normalizeSections_warning_types (xs : List JValue) (idx : Nat) :
    ∀ w ∈ (normalizeSections xs idx).2,
      w.type = .droppedComponent ∨ w.type = .fixedProp ∨ w.type = .invalidSection := by
  induction xs generalizing idx with
  | nil => intro w hw; simp [normalizeSections] at hw
  | cons x tl ih =>
    intro w hw
    by_cases hx : typeofObject x ∧ x ≠ JValue.null
    · simp only [normalizeSections, if_pos hx, List.mem_append] at hw
      rcases hw with hw | hw
      · exact normalizeSection_warning_types x idx w hw
      · exact ih (idx + 1) w hw
    · simp only [normalizeSections, if_neg hx] at hw
      exact ih (idx + 1) w hw

/-- Claim C10 — no warning produced by `normalizeBlueprint` ever has type
`default-applied` (the variant is declared but never emitted), and a layout
value outside the fixed 4-value enum is silently replaced by `"single-page"`
with no diagnostic recorded. -/
theorem claim10_default_applied_never_emitted (raw : JValue) (res : NormalizationResult)
    (h : normalizeBlueprint raw = .ok res) :
    (∀ w ∈ res.warnings, w.type ≠ WarningType.defaultApplied)
    ∧ (layoutOptions.contains (jsToString (jsGetField raw "layout")) = false →
        res.blueprint.layout = "single-page") := by
  obtain ⟨-, hlay, -, hws, -⟩ := normalizeBlueprint_ok_inv raw res h
  constructor
  · intro w hw
    rw [hws] at hw
    have htype : w.type = .droppedComponent ∨ w.type = .fixedProp ∨ w.type = .invalidSection := by
      split at hw
      · simp only [List.mem_append, List.mem_singleton] at hw
        rcases hw with hw | hw
        · exact normalizeSections_warning_types _ _ w hw
        · subst hw
          exact Or.inr (Or.inr rfl)
      · exact normalizeSections_warning_types _ _ w hw
    rcases htype with h' | h' | h' <;> simp [h']
  · intro hnc
    rw [hlay, hnc]
    simp

/-- Document whose `layout` is outside the enum. -/
def weirdLayoutInput : JValue := jobj [("layout", .str "weird")]

/-- The result of normalizing `weirdLayoutInput`. -/
def weirdLayoutRes : NormalizationResult :=
  match normalizeBlueprint weirdLayoutInput with
  | .ok r => r
  | .error _ => ⟨⟨"", "", [], .undefined, .undefined⟩, [], .undefined⟩

/-- Witness for C10: a `layout: "weird"` document gets `"single-page"` and no
`default-applied` warning. -/
theorem claim10_witness :
    (∀ w ∈ weirdLayoutRes.warnings, w.type ≠ WarningType.defaultApplied)
    ∧ (layoutOptions.contains (jsToString (jsGetField weirdLayoutInput "layout")) = false →
        weirdLayoutRes.blueprint.layout = "single-page") :=
  claim10_default_applied_never_emitted weirdLayoutInput weirdLayoutRes (by rfl)

/-- A `dropped-component` warning whose `componentName` field references
`N`. -/
def isDroppedNamed (N : String) (w : NormalizationWarning) : Bool :=
  decide (w.type = WarningType.droppedComponent ∧ w.componentName = some N)

theorem countW_comp (comp : JValue) (sid N : String) (hN : registryHas N = false)
    (hne : N ≠ "") (hpe : N ≠ "(empty)") :
    ((normalizeComponent comp sid).2.countP (isDroppedNamed N))
      = if extractName comp = N then 1 else 0 := by
  by_cases h1 : extractName comp = ""
  · have hx : ¬(extractName comp = N) := by
      rw [h1]
      exact fun hh => hne hh.symm
    have hp : ¬("(empty)" = N) := fun hh => hpe hh.symm
    have h0 : ¬("" = N) := fun hh => hne hh.symm
    simp [normalizeComponent, h1, isDroppedNamed, List.countP_cons, hx, hp, h0]
  · by_cases h2 : registryHas (extractName comp) = true
    · have hx : ¬(extractName comp = N) := by
        intro hh
        rw [hh] at h2
        rw [h2] at hN
        exact absurd hN (by simp)
      rw [normalizeComponent_of_registered comp sid h2]
      rcases (runNormalizer (extractName comp) (extractRawProps comp)).2 with _ | e <;>
        simp [isDroppedNamed, List.countP_cons, hx]
    · simp only [normalizeComponent, h1, h2]
      by_cases hx : extractName comp = N <;>
        simp [isDroppedNamed, List.countP_cons, hx, h1, h2]

theorem countW_comps (xs : List JValue) (sid N : String) (hN : registryHas N = false)
    (hne : N ≠ "") (hpe : N ≠ "(empty)") :
    (normalizeComponents xs sid).2.countP (isDroppedNamed N) = countCompsNamed xs N := by
  induction xs with
  | nil => simp [normalizeComponents, countCompsNamed]
  | cons x tl ih =>
    by_cases hx : typeofObject x ∧ x ≠ JValue.null
    · simp only [normalizeComponents, if_pos hx, countCompsNamed, List.countP_append]
      rw [countW_comp x sid N hN hne hpe, ih]
      by_cases hxn : extractName x = N <;> simp [hx, hxn, Nat.add_comm]
    · simp only [normalizeComponents, if_neg hx, countCompsNamed]
      rw [ih]
      simp [hx]

theorem countW_sec (raw : JValue) (idx : Nat) (N : String) (hN : registryHas N = false)
    (hne : N ≠ "") (hpe : N ≠ "(empty)") :
    (normalizeSection raw idx).2.countP (isDroppedNamed N) = countSectionComps raw N := by
  simp only [normalizeSection]
  split
  · rw [List.countP_append, countW_comps _ _ N hN hne hpe]
    simp [isDroppedNamed, List.countP_cons, countSectionComps]
  · exact countW_comps _ _ N hN hne hpe

theorem countW_secs (xs : List JValue) (idx : Nat) (N : String) (hN : registryHas N = false)
    (hne : N ≠ "") (hpe : N ≠ "(empty)") :
    (normalizeSections xs idx).2.countP (isDroppedNamed N) = countSectionsComps xs N := by
  induction xs generalizing idx with
  | nil => simp [normalizeSections, countSectionsComps]
  | cons x tl ih =>
    by_cases hx : typeofObject x ∧ x ≠ JValue.null
    · simp only [normalizeSections, if_pos hx, countSectionsComps, List.countP_append]
      rw [countW_sec x idx N hN hne hpe, ih (idx + 1)]
    · simp only [normalizeSections, if_neg hx, countSectionsComps]
      rw [ih (idx + 1)]
      simp [hx]

theorem normalizeComponents_registered (xs : List JValue) (sid : String) :
    ∀ c ∈ (normalizeComponents xs sid).1, registryHas c.componentName = true := by
  induction xs with
  | nil => intro c hc; simp [normalizeComponents] at hc
  | cons x tl ih =>
    intro c hc
    by_cases hx : typeofObject x ∧ x ≠ JValue.null
    · simp only [normalizeComponents, if_pos hx, List.mem_append] at hc
      rcases hc with hc | hc
      · rcases ho : (normalizeComponent x sid).1 with _ | c'
        · rw [ho] at hc
          simp at hc
        · rw [ho] at hc
          simp at hc
          subst hc
          exact (normalizeComponent_registered x sid c ho).1
      · exact ih c hc
    · simp only [normalizeComponents, if_neg hx] at hc
      exact ih c hc

theorem normalizeSection_inv (raw : JValue) (idx : Nat) (s : BlueprintSection)
    (h : (normalizeSection raw idx).1 = some s) :
    s.components ≠ [] ∧ ∀ c ∈ s.components, registryHas c.componentName = true := by
  simp only [normalizeSection] at h
  split at h
  · simp at h
  · rw [Option.some.injEq] at h
    subst h
    refine ⟨?_, fun c hc => normalizeComponents_registered _ _ c hc⟩
    intro hnil
    simp_all

theorem normalizeSections_inv (xs : List JValue) (idx : Nat) :
    ∀ s ∈ (normalizeSections xs idx).1,
      s.components ≠ [] ∧ ∀ c ∈ s.components, registryHas c.componentName = true := by
  induction xs generalizing idx with
  | nil => intro s hs; simp [normalizeSections] at hs
  | cons x tl ih =>
    intro s hs
    by_cases hx : typeofObject x ∧ x ≠ JValue.null
    · simp only [normalizeSections, if_pos hx, List.mem_append] at hs
      rcases hs with hs | hs
      · rcases ho : (normalizeSection x idx).1 with _ | s'
        · rw [ho] at hs
          simp at hs
        · rw [ho] at hs
          simp at hs
          subst hs
          exact normalizeSection_inv x idx s ho
      · exact ih (idx + 1) s hs
    · simp only [normalizeSections, if_neg hx] at hs
      exact ih (idx + 1) s hs

/-- Claim C2 — for a name `N` absent from the registry (and distinct from the
`""`/`"(empty)"` placeholders of the missing-name path), the returned
blueprint contains no component named `N`, and the warning list contains
exactly one `dropped-component` entry referencing `N` per raw component
carrying that name; the registry lookup is exact string equality, so a
case-variant of a registered name (e.g. `"herosection"`) is dropped, never
fuzzily corrected. -/
theorem claim2_unknown_component_excluded (raw : JValue) (res : NormalizationResult)
    (N : String) (h : normalizeBlueprint raw = .ok res) (hN : registryHas N = false)
    (hne : N ≠ "") (hpe : N ≠ "(empty)") :
    res.warnings.countP (isDroppedNamed N) = countComponentsNamed raw N
    ∧ ∀ s ∈ res.blueprint.sections, ∀ c ∈ s.components, c.componentName ≠ N := by
  obtain ⟨-, -, hsec, hws, -⟩ := normalizeBlueprint_ok_inv raw res h
  constructor
  · rw [hws]
    have hcount := countW_secs (rawSectionsOf raw) 0 N hN hne hpe
    split
    · rw [List.countP_append, hcount]
      simp [isDroppedNamed, List.countP_cons, fallbackWarning, countComponentsNamed,
        rawSectionsOf]
    · rw [hcount]
      simp [countComponentsNamed, rawSectionsOf]
  · intro s hs c hc
    rw [hsec] at hs
    have hreg : registryHas c.componentName = true := by
      split at hs
      · simp only [List.mem_singleton] at hs
        subst hs
        simp only [fallbackSection] at hc
        simp at hc
        subst hc
        decide
      · exact (normalizeSections_inv _ _ s hs).2 c hc
    intro hcn
    rw [hcn] at hreg
    rw [hreg] at hN
    exact absurd hN (by simp)

/-- One valid `HeroSection` next to a `"herosection"` (a case-variant of a
registered name). -/
def unknownNameInput : JValue :=
  jobj [("sections", jarr [jobj [("components", jarr [
    jobj [("componentName", .str "HeroSection"), ("props", jobj [("headline", .str "Hi")])],
    jobj [("componentName", .str "herosection")]])]])]

/-- The result of normalizing `unknownNameInput`. -/
def unknownNameRes : NormalizationResult :=
  match normalizeBlueprint unknownNameInput with
  | .ok r => r
  | .error _ => ⟨⟨"", "", [], .undefined, .undefined⟩, [], .undefined⟩

/-- Witness for C2: `"herosection"` (lowercase) is not fuzzily matched to
`HeroSection` — it is dropped with exactly one referencing warning and never
appears in the blueprint. -/
theorem claim2_witness :
    unknownNameRes.warnings.countP (isDroppedNamed "herosection")
        = countComponentsNamed unknownNameInput "herosection"
    ∧ ∀ s ∈ unknownNameRes.blueprint.sections, ∀ c ∈ s.components,
        c.componentName ≠ "herosection" :=
  claim2_unknown_component_excluded unknownNameInput unknownNameRes "herosection"
    (by rfl) (by decide) (by decide) (by decide)

/-- Whether a `componentRationale` value cannot make the rationale `.map`
throw: a list must hold no nullish element; every other shape is harmless. -/
def rationaleShapeOk (cr : JValue) : Bool :=
  match cr with
  | .arr xs => xs.toL.all (fun r => !r.isNullish)
  | _ => true

/-- Whether an explanation value survives the explanation block without a
throw: unless it is a truthy object whose `componentRationale` is a list
containing a nullish element, normalization of it succeeds. -/
def explanationSafe (v : JValue) : Bool :=
  if jTruthy v ∧ typeofObject v then rationaleShapeOk (jsGetField v "componentRationale")
  else true

/-- Whether normalizing `raw` throws from the explanation block (the one
uncaught exception an object input can trigger: mapping over a list-shaped
`componentRationale` that contains `null`/`undefined`). -/
def rationaleThrows (raw : JValue) : Bool := !(explanationSafe (jsGetField raw "explanation"))

theorem normalizeExplanationField_ok (v : JValue) (h : explanationSafe v = true) :
    ∃ e, normalizeExplanationField v = .ok e := by
  by_cases hv : jTruthy v ∧ typeofObject v
  · have hcr : ∃ y, normalizeRationale (jsGetField v "componentRationale") = .ok y := by
      rcases hc : jsGetField v "componentRationale" with _ | _ | s | n | b | xs | fs | s
      case arr =>
        have hall : ∀ r ∈ xs.toL, r.isNullish = false := by
          rw [explanationSafe, if_pos hv, hc] at h
          simp only [rationaleShapeOk] at h
          intro r hr
          have := List.all_eq_true.mp h r hr
          simpa using this
        refine ⟨jarr (xs.toL.map rationalePair), ?_⟩
        simp [normalizeRationale, typeofObject, rationaleList_ok xs.toL hall,
          Bind.bind, Except.bind]
      all_goals exact ⟨_, rfl⟩
    obtain ⟨y, hy⟩ := hcr
    refine ⟨jobj [("reasoning", .str (toSafeString (nc (jsGetField v "reasoning") (.str "")))),
      ("componentRationale", y),
      ("suggestedImprovements", jstrArr (toStringArray (nc (jsGetField v "suggestedImprovements")
        (nc (jsGetField v "suggestions") (jarr [])))))], ?_⟩
    simp [normalizeExplanationField, hv, hy]
  · exact ⟨v, by simp [normalizeExplanationField, hv]⟩

/-- Claim C1 (amended) — for every input that is not `null`/`undefined` and
whose explanation block cannot trigger the uncaught rationale `TypeError`
(a truthy explanation object with a list-shaped `componentRationale`
containing a nullish entry), `normalizeBlueprint` returns without raising,
and the result has at least one section, each with at least one component.
The unamended totality (including `null` and arbitrary unrelated JSON with
such an explanation) does not hold. -/
theorem claim1_totality_amended (raw : JValue) (h1 : raw.isNullish = false)
    (h2 : rationaleThrows raw = false) :
    ∃ res, normalizeBlueprint raw = .ok res
      ∧ res.blueprint.sections ≠ []
      ∧ ∀ s ∈ res.blueprint.sections, s.components ≠ [] := by
  have hsafe : explanationSafe (jsGetField raw "explanation") = true := by
    simpa [rationaleThrows] using h2
  obtain ⟨e, he⟩ := normalizeExplanationField_ok _ hsafe
  have hex : ∃ res, normalizeBlueprint raw = .ok res := by
    rw [normalizeBlueprint]
    simp only [h1, Bool.false_eq_true, if_false]
    rw [he]
    exact ⟨_, rfl⟩
  obtain ⟨res, hres⟩ := hex
  obtain ⟨-, -, hsec, -, -⟩ := normalizeBlueprint_ok_inv raw res hres
  refine ⟨res, hres, ?_, ?_⟩
  · rw [hsec]
    split
    · simp
    · next hlen =>
      intro hnil
      exact hlen (by rw [hnil]; rfl)
  · intro s hs
    rw [hsec] at hs
    split at hs
    · simp only [List.mem_singleton] at hs
      subst hs
      simp [fallbackSection]
    · exact (normalizeSections_inv _ _ s hs).1

/-- Counterexample to C1 as stated: the JSON document `null` makes
`normalizeBlueprint` raise a `TypeError` at its very first property read
instead of returning a blueprint. -/
theorem claim1_counterexample :
    normalizeBlueprint JValue.null
      = .error "TypeError: Cannot read properties of null (reading \x27appType\x27)" := rfl

/-- Witness for C1 (amended): the empty object satisfies both hypotheses and
yields a blueprint with one nonempty section. -/
theorem claim1_witness :
    ∃ res, normalizeBlueprint (jobj []) = .ok res
      ∧ res.blueprint.sections ≠ []
      ∧ ∀ s ∈ res.blueprint.sections, s.components ≠ [] :=
  claim1_totality_amended (jobj []) (by decide) (by decide)

/-- The structure of a section a re-normalization must preserve: its id and
the ordered names of its components. -/
def sectionSkeleton (s : BlueprintSection) : String × List String :=
  (s.id, s.components.map fun c => c.componentName)

theorem rationaleList_ok_inv (xs : List JValue) (ys : List JValue)
    (h : rationaleList xs = .ok ys) : ys = xs.map rationalePair := by
  induction xs generalizing ys with
  | nil =>
    simp only [rationaleList] at h
    rw [Except.ok.injEq] at h
    simp [← h]
  | cons r tl ih =>
    simp only [rationaleList] at h
    split at h
    · simp at h
    · rcases hr : rationaleList tl with e | rest
      · rw [hr] at h
        simp [Bind.bind, Except.bind] at h
      · rw [hr] at h
        simp only [Bind.bind, Except.bind] at h
        rw [Except.ok.injEq] at h
        rw [← h, ih rest hr]
        simp

theorem normalizeRationale_shape (cr0 cr : JValue) (h : normalizeRationale cr0 = .ok cr) :
    rationaleShapeOk cr = true := by
  rcases cr0 with _ | _ | s | n | b | xs | fs | s
  case arr =>
    have h2 : Except.bind (rationaleList xs.toL) (fun ys => Except.ok (jarr ys))
        = Except.ok cr := h
    rcases hr : rationaleList xs.toL with e | ys
    · rw [hr] at h2
      simp [Except.bind] at h2
    · rw [hr] at h2
      simp only [Except.bind] at h2
      rw [Except.ok.injEq] at h2
      rw [← h2]
      have hys := rationaleList_ok_inv _ _ hr
      simp only [rationaleShapeOk, jarr, jlist_toL_ofL]
      rw [List.all_eq_true]
      intro r hrm
      rw [hys] at hrm
      obtain ⟨r0, -, rfl⟩ := List.mem_map.mp hrm
      rfl
  case obj =>
    have h2 : Except.ok (jobj ((jsEntries (JValue.obj fs)).map
        fun e => (e.1, JValue.str (toSafeString e.2)))) = Except.ok cr := h
    rw [← Except.ok.inj h2]
    rfl
  case null =>
    have h2 : Except.ok (jobj []) = Except.ok cr := h
    rw [← Except.ok.inj h2]
    rfl
  all_goals
    have h2 : Except.ok (jobj []) = Except.ok cr := h
  all_goals
    rw [← Except.ok.inj h2]
    rfl

theorem explanationSafe_of_ok (v e : JValue) (h : normalizeExplanationField v = .ok e) :
    explanationSafe e = true := by
  rw [normalizeExplanationField] at h
  split at h
  · rcases hcr : normalizeRationale (jsGetField v "componentRationale") with e' | cr
    · rw [hcr] at h
      simp at h
    · rw [hcr] at h
      rw [Except.ok.injEq] at h
      rw [← h]
      exact normalizeRationale_shape _ _ hcr
  · rw [Except.ok.injEq] at h
    rw [← h]
    next hcond =>
      simp [explanationSafe, hcond]

theorem normalizeBlueprint_pass1 (raw : JValue) (res : NormalizationResult)
    (h : normalizeBlueprint raw = .ok res) :
    res.blueprint.sections ≠ []
    ∧ (∀ s ∈ res.blueprint.sections,
        s.components ≠ [] ∧ ∀ c ∈ s.components, registryHas c.componentName = true)
    ∧ layoutOptions.contains res.blueprint.layout = true
    ∧ explanationSafe res.blueprint.explanation = true := by
  obtain ⟨-, hlay, hsec, -, hexp⟩ := normalizeBlueprint_ok_inv raw res h
  refine ⟨?_, ?_, ?_, explanationSafe_of_ok _ _ hexp⟩
  · rw [hsec]
    split
    · simp
    · next hlen =>
      intro hnil
      exact hlen (by rw [hnil]; rfl)
  · intro s hs
    rw [hsec] at hs
    split at hs
    · simp only [List.mem_singleton] at hs
      subst hs
      refine ⟨by decide, ?_⟩
      intro c hc
      simp only [fallbackSection] at hc
      simp at hc
      subst hc
      decide
    · exact normalizeSections_inv _ _ s hs
  · rw [hlay]
    split
    · next hc => exact hc
    · decide

theorem extractName_encode (c : BlueprintComponent) :
    extractName (encodeComponent c) = c.componentName := rfl

theorem normalizeComponent_encode (c : BlueprintComponent) (sid : String)
    (h : registryHas c.componentName = true) :
    normalizeComponent (encodeComponent c) sid =
      (some ⟨c.componentName,
        sanitizeProps (runNormalizer c.componentName (extractRawProps (encodeComponent c))).1⟩,
       match (runNormalizer c.componentName (extractRawProps (encodeComponent c))).2 with
       | some e => [⟨.fixedProp, some sid, some c.componentName, "Normalizer error: " ++ e⟩]
       | none => []) := by
  have hn := extractName_encode c
  have h2 : registryHas (extractName (encodeComponent c)) = true := by rw [hn]; exact h
  rw [normalizeComponent_of_registered _ sid h2, hn]

theorem normalizeComponent_encode_ws (c : BlueprintComponent) (sid : String)
    (h : registryHas c.componentName = true) :
    ∀ w ∈ (normalizeComponent (encodeComponent c) sid).2, w.type = WarningType.fixedProp := by
  intro w hw
  rw [normalizeComponent_encode c sid h] at hw
  rcases hr : (runNormalizer c.componentName (extractRawProps (encodeComponent c))).2 with _ | e
  · rw [hr] at hw
    simp at hw
  · rw [hr] at hw
    simp at hw
    rw [hw]

theorem normalizeComponents_encode (cs : List BlueprintComponent) (sid : String)
    (h : ∀ c ∈ cs, registryHas c.componentName = true) :
    ((normalizeComponents (cs.map encodeComponent) sid).1.map fun c => c.componentName)
        = (cs.map fun c => c.componentName)
    ∧ ∀ w ∈ (normalizeComponents (cs.map encodeComponent) sid).2,
        w.type = WarningType.fixedProp := by
  induction cs with
  | nil => simp [normalizeComponents]
  | cons c tl ih =>
    have hobj : typeofObject (encodeComponent c) ∧ encodeComponent c ≠ JValue.null := by
      exact ⟨rfl, by simp [encodeComponent, jobj]⟩
    obtain ⟨ih1, ih2⟩ := ih (fun c' hc' => h c' (List.mem_cons_of_mem _ hc'))
    have hc : registryHas c.componentName = true := h c (List.mem_cons_self _ _)
    constructor
    · simp only [List.map_cons, normalizeComponents, if_pos hobj]
      rw [normalizeComponent_encode c sid hc]
      simp [ih1]
    · intro w hw
      simp only [List.map_cons, normalizeComponents, if_pos hobj, List.mem_append] at hw
      rcases hw with hw | hw
      · exact normalizeComponent_encode_ws c sid hc w hw
      · exact ih2 w hw

theorem normalizeSection_encode (s : BlueprintSection) (idx : Nat)
    (hne : s.components ≠ [])
    (hreg : ∀ c ∈ s.components, registryHas c.componentName = true) :
    ∃ s' ws, normalizeSection (encodeSection s) idx = (some s', ws)
      ∧ sectionSkeleton s' = sectionSkeleton s
      ∧ ∀ w ∈ ws, w.type = WarningType.fixedProp := by
  have hid : jsToString (nc (jsGetField (encodeSection s) "id")
      (.str ("section-" ++ toString idx))) = s.id := rfl
  have hcomps : ensureArray (nc (jsGetField (encodeSection s) "components") (jarr []))
      = s.components.map encodeComponent := by
    show ensureArray (JValue.arr (JList.ofL (s.components.map encodeComponent))) = _
    simp [ensureArray, jlist_toL_ofL]
  obtain ⟨hmap, hwt⟩ := normalizeComponents_encode s.components s.id hreg
  have hlen : (normalizeComponents (s.components.map encodeComponent) s.id).1.length
      = s.components.length := by
    have := congrArg List.length hmap
    simpa using this
  have hcond : ¬((normalizeComponents (s.components.map encodeComponent) s.id).1.length = 0) := by
    rw [hlen]
    intro h0
    exact hne (List.length_eq_zero.mp h0)
  refine ⟨⟨s.id,
      (if jTruthy (jsGetField (encodeSection s) "heading") then
        JValue.str (toSafeString (jsGetField (encodeSection s) "heading"))
      else JValue.undefined),
      (normalizeComponents (s.components.map encodeComponent) s.id).1⟩,
    (normalizeComponents (s.components.map encodeComponent) s.id).2, ?_, ?_, hwt⟩
  · simp only [normalizeSection, hid, hcomps]
    rw [if_neg hcond]
  · simp [sectionSkeleton, hmap]

theorem normalizeSections_encode (ss : List BlueprintSection) (idx : Nat)
    (h : ∀ s ∈ ss, s.components ≠ []
          ∧ ∀ c ∈ s.components, registryHas c.componentName = true) :
    ((normalizeSections (ss.map encodeSection) idx).1.map sectionSkeleton
        = ss.map sectionSkeleton)
    ∧ ∀ w ∈ (normalizeSections (ss.map encodeSection) idx).2,
        w.type = WarningType.fixedProp := by
  induction ss generalizing idx with
  | nil => simp [normalizeSections]
  | cons s tl ih =>
    have hobj : typeofObject (encodeSection s) ∧ encodeSection s ≠ JValue.null := by
      exact ⟨rfl, by simp [encodeSection, jobj]⟩
    obtain ⟨h1, h2⟩ := h s (List.mem_cons_self _ _)
    obtain ⟨s', ws, hsec, hskel, hwt⟩ := normalizeSection_encode s idx h1 h2
    obtain ⟨ih1, ih2⟩ := ih (idx + 1) (fun s' hs' => h s' (List.mem_cons_of_mem _ hs'))
    constructor
    · simp only [List.map_cons, normalizeSections, if_pos hobj, hsec]
      simp [hskel, ih1]
    · intro w hw
      simp only [List.map_cons, normalizeSections, if_pos hobj, hsec, List.mem_append] at hw
      rcases hw with hw | hw
      · exact hwt w hw
      · exact ih2 w hw

/-- Claim C4 (amended) — feeding a returned blueprint back through
`normalizeBlueprint` always succeeds and never drops anything: the second
pass preserves `appType`, `layout` and the full section/component structure
(ids and ordered component names), and every warning it can emit is a
`fixed-prop` one (no `dropped-component`, no `invalid-section`); but the
resulting blueprint need not be identical to the input blueprint and the
warning list need not be empty, so one pass is not a fixed point. -/
theorem claim4_renormalization_preserves_structure (raw : JValue) (res : NormalizationResult)
    (h : normalizeBlueprint raw = .ok res) :
    ∃ res₂, normalizeBlueprint (encodeBlueprint res.blueprint) = .ok res₂
      ∧ res₂.blueprint.appType = res.blueprint.appType
      ∧ res₂.blueprint.layout = res.blueprint.layout
      ∧ res₂.blueprint.sections.map sectionSkeleton
          = res.blueprint.sections.map sectionSkeleton
      ∧ ∀ w ∈ res₂.warnings, w.type = WarningType.fixedProp := by
  obtain ⟨hne, hinv, hlay, hexp⟩ := normalizeBlueprint_pass1 raw res h
  obtain ⟨e2, he2⟩ := normalizeExplanationField_ok res.blueprint.explanation hexp
  obtain ⟨hskel, hwt⟩ := normalizeSections_encode res.blueprint.sections 0 hinv
  have hgE : jsGetField (encodeBlueprint res.blueprint) "explanation"
      = res.blueprint.explanation := rfl
  have hraw : rawSectionsOf (encodeBlueprint res.blueprint)
      = res.blueprint.sections.map encodeSection := by
    show ensureArray (nc (JValue.arr (JList.ofL (res.blueprint.sections.map encodeSection))) (jarr [])) = _
    simp [ensureArray, nc, JValue.isNullish, jlist_toL_ofL]
  have hlen : (normalizeSections (res.blueprint.sections.map encodeSection) 0).1.length
      = res.blueprint.sections.length := by
    have := congrArg List.length hskel
    simpa using this
  have hne2 : ¬((normalizeSections (res.blueprint.sections.map encodeSection) 0).1.length = 0) := by
    rw [hlen]
    intro h0
    exact hne (List.length_eq_zero.mp h0)
  have hex : ∃ r2, normalizeBlueprint (encodeBlueprint res.blueprint) = .ok r2 := by
    rw [normalizeBlueprint]
    have hnn : (encodeBlueprint res.blueprint).isNullish = false := rfl
    simp only [hnn, Bool.false_eq_true, if_false]
    rw [hgE, he2]
    exact ⟨_, rfl⟩
  obtain ⟨r2, hr2⟩ := hex
  obtain ⟨hA2, hL2, hS2, hW2, -⟩ := normalizeBlueprint_ok_inv _ r2 hr2
  refine ⟨r2, hr2, ?_, ?_, ?_, ?_⟩
  · rw [hA2]
    rfl
  · rw [hL2]
    have hjs : jsToString (jsGetField (encodeBlueprint res.blueprint) "layout")
        = res.blueprint.layout := rfl
    rw [hjs, if_pos hlay]
  · rw [hS2, hraw, if_neg hne2]
    exact hskel
  · intro w hw
    rw [hW2, hraw, if_neg hne2] at hw
    exact hwt w hw

/-- An input document for the round-trip witness. -/
def roundtripInput : JValue := jobj [("appType", .str "demo")]

/-- The result of normalizing `roundtripInput`. -/
def roundtripRes : NormalizationResult :=
  match normalizeBlueprint roundtripInput with
  | .ok r => r
  | .error _ => ⟨⟨"", "", [], .undefined, .undefined⟩, [], .undefined⟩

/-- Witness for C4 (amended): re-normalizing the blueprint produced for
`roundtripInput` succeeds and preserves its structure with only `fixed-prop`
warnings possible. -/
theorem claim4_witness :
    ∃ res₂, normalizeBlueprint (encodeBlueprint roundtripRes.blueprint) = .ok res₂
      ∧ res₂.blueprint.appType = roundtripRes.blueprint.appType
      ∧ res₂.blueprint.layout = roundtripRes.blueprint.layout
      ∧ res₂.blueprint.sections.map sectionSkeleton
          = roundtripRes.blueprint.sections.map sectionSkeleton
      ∧ ∀ w ∈ res₂.warnings, w.type = WarningType.fixedProp :=
  claim4_renormalization_preserves_structure roundtripInput roundtripRes (by rfl)

/-- Claim C4 exactly as stated, as a decidable check at one input: the second
pass must return the identical blueprint together with an empty warning
list. -/
def claimIdempotentAt (raw : JValue) : Bool :=
  match normalizeBlueprint raw with
  | .error _ => false
  | .ok res =>
    match normalizeBlueprint (encodeBlueprint res.blueprint) with
    | .error _ => false
    | .ok res₂ => decide (res₂.blueprint = res.blueprint) && res₂.warnings.isEmpty

/-- A document with a `FeatureGrid` whose features come as bare strings (the
first pass stores `{title, description}` records, the second pass rewrites
them to `{icon, title, description}`) and a `ChartView` whose first dataset
is `null` (its normalizer throws again on the second pass, so a `fixed-prop`
warning recurs). -/
def idempotenceCexInput : JValue :=
  jobj [("sections", jarr [jobj [("components", jarr [
    jobj [("componentName", .str "FeatureGrid"),
          ("props", jobj [("features", jarr [.str "Fast"])])],
    jobj [("componentName", .str "ChartView"),
          ("props", jobj [("labels", jarr [.str "a"]), ("datasets", jarr [.null])])]])]])]

/-- Counterexample to C4 as stated: at `idempotenceCexInput` the second pass
returns a different blueprint and a nonempty warning list — one pass is not
a fixed point. -/
theorem claim4_counterexample : claimIdempotentAt idempotenceCexInput = false := by rfl

end Forge
